import Mathlib

/-!
# Flare–Sector Coincidence Matcher: a shallow embedding

This file embeds the flare/sector coincidence-matching pipeline of the
`SPT_Flares` notebook (`find_coinciding_flares` notebook, code cells 2–5)
and proves properties of it.

Modelling conventions:
* MJD timestamps are modelled as rationals `ℚ`; the only operations the
  code performs on them are order comparisons, for which `ℚ` is a faithful
  model of the IEEE doubles used by pandas.  The ISO-string → MJD
  conversion (`astropy.time.Time(...).utc.mjd`) is an external parser and
  is abstracted away: tables enter the model already carrying MJD values.
* Missing CSV cells (`NaN`) are modelled with `Option ℚ` in the raw
  sector-schedule table; pandas `min`/`max` skip missing values, which is
  `List.min?`/`List.max?` over `filterMap`.
* Python exceptions that the notebook can raise inside the matching loop
  are modelled with `Except PyError`; the notebook has no `try/except`,
  so an error aborts the remaining work, exactly like `Except` bind.
* The loop variable `flare` yielded by `DataFrame.iterrows()` is a copy
  of the row, but its `'sectors'` cell holds a reference to the very list
  stored in the DataFrame.  `list.append` mutates that shared list and
  returns `None`; the statement `flare['sectors'] = flare['sectors'].append(sector)`
  therefore mutates the DataFrame's list *and* rebinds the loop variable's
  field to `None`.  `FlareState` captures exactly this: `dfSectors` is the
  list held by the DataFrame, `localIsList` records whether the loop
  variable's `'sectors'` field still references that list (`true`) or has
  been rebound to `None` (`false`).
-/

namespace SPTFlares

/-- One row of the aggregated TESS sector table as used by the matching
loop (`TESS_sectors_df` after groupby/dropna and MJD conversion):
columns `Sector`, `Sector Start`, `Sector End`. -/
structure SectorRow where
  sector : Nat
  start : ℚ
  stop : ℚ
deriving DecidableEq

/-- One flare record as produced by the input-loading cell: its MJD
timestamp (column `mjd`) and its matched-sector list (column `sectors`). -/
structure FlareRecord where
  mjd : ℚ
  sectors : List Nat
deriving DecidableEq

/-- Embeds the flare-catalog loading cell.  The notebook computes the
`mjd` column, then evaluates `spt_flares_df.sort_values(by='mjd')` WITHOUT
assigning the sorted copy back (and without `inplace=True`), so the
DataFrame keeps its original row order; finally it initialises the
`sectors` column with fresh empty lists, one per row.  The discarded
sorted copy is kept here as an unused `let` to mirror the source line. -/
def loadFlares (mjds : List ℚ) : List FlareRecord :=
  let _sortedCopyDiscarded := mjds.insertionSort (· ≤ ·)
  mjds.map (fun t => ⟨t, []⟩)

/-- One row of the raw TESS orbit-times CSV: columns `Sector`,
`Start of Orbit`, `End of Orbit`; a missing cell is `none`. -/
structure OrbitRow where
  sector : Nat
  orbStart : Option ℚ
  orbEnd : Option ℚ
deriving DecidableEq

/-- One row of the aggregated sector table before the MJD conversion:
`Sector`, `Sector Start` (= min of orbit starts), `Sector End`
(= max of orbit ends); still possibly missing. -/
structure AggRow where
  sector : Nat
  aggStart : Option ℚ
  aggEnd : Option ℚ
deriving DecidableEq

/-- The rows of one `groupby("Sector")` group. -/
def sectorGroup (rows : List OrbitRow) (s : Nat) : List OrbitRow :=
  rows.filter (fun r => r.sector == s)

/-- The group keys of `groupby("Sector")`: distinct sector values, in
ascending order (pandas `groupby` sorts its keys by default). -/
def groupKeys (rows : List OrbitRow) : List Nat :=
  ((rows.map OrbitRow.sector).dedup).insertionSort (· ≤ ·)

/-- The aggregated row of one group: `agg({"Start of Orbit": "min",
"End of Orbit": "max"})`.  pandas `min`/`max` skip missing values and
yield missing only when every value of the group is missing, which is
`List.min?`/`List.max?` over `filterMap`. -/
def aggRow (rows : List OrbitRow) (s : Nat) : AggRow :=
  ⟨s, ((sectorGroup rows s).filterMap OrbitRow.orbStart).min?,
      ((sectorGroup rows s).filterMap OrbitRow.orbEnd).max?⟩

/-- Embeds `TESS_sectors_df.groupby("Sector").agg(...).reset_index()`:
one row per distinct sector, keyed ascending. -/
def aggregateSectors (rows : List OrbitRow) : List AggRow :=
  (groupKeys rows).map (aggRow rows)

/-- Embeds `TESS_sectors_df.dropna(subset=['Sector Start'])`: keep the
rows whose `Sector Start` cell is present; `Sector End` is not inspected. -/
def dropStartNa (t : List AggRow) : List AggRow :=
  t.filter (fun a => a.aggStart.isSome)

/-- The sector table right after the two (identical) `dropna` lines of
the loading cell; the notebook applies `dropna(subset=['Sector Start'])`
twice in a row. -/
def preparedSectors (rows : List OrbitRow) : List AggRow :=
  dropStartNa (dropStartNa (aggregateSectors rows))

/-- Embeds `spt_t_bounds = (spt_flares_df.iloc[0]['mjd'],
spt_flares_df.iloc[-1]['mjd'])`: the timestamps of the first and last
rows of the flare table in its current order (not a min/max scan). -/
def sptTBounds (flares : List FlareRecord) (h : flares ≠ []) : ℚ × ℚ :=
  ((flares.head h).mjd, (flares.getLast h).mjd)

/-- Embeds the candidate-sector filter
`set(TESS_sectors_df.loc[(Sector Start <= t_bounds[1]) & (Sector End >= t_bounds[0])]['Sector'])`:
the set (modelled as a deduplicated list) of sector ids whose window
starts no later than `t1` and ends no earlier than `t0`. -/
def validSectors (table : List SectorRow) (t0 t1 : ℚ) : List Nat :=
  ((table.filter (fun r => decide (r.start ≤ t1) && decide (t0 ≤ r.stop))).map
    SectorRow.sector).dedup

/-- The Python exceptions the matching loop can raise: `IndexError` from
`.iloc[0]` on an empty selection, `AttributeError` from calling
`.append` on `None`. -/
inductive PyError where
  | indexError
  | attributeError
deriving DecidableEq

/-- Matching state of one flare, see the module docstring: `dfSectors`
is the list stored in the DataFrame's `sectors` cell; `localIsList`
tells whether the loop variable's `'sectors'` field still references
that list (`true`) or has been rebound to `None` (`false`). -/
structure FlareState where
  dfSectors : List Nat
  localIsList : Bool
deriving DecidableEq

/-- Embeds `TESS_sectors_df[TESS_sectors_df['Sector'] == sector]`
followed by `.iloc[0]`: the first row of the table with the given
sector id, if any. -/
def lookupSector (table : List SectorRow) (s : Nat) : Option SectorRow :=
  (table.filter (fun r => r.sector == s)).head?

/-- Embeds one iteration of the inner loop of the matching cell, for one
coverage hit `hit` of a flare with timestamp `t`:
look the sector's window up (`.iloc[0]` raises `IndexError` when the
selection is empty), test `sector_start < flare_obs_start.value < sector_end`,
and on success run `flare['sectors'] = flare['sectors'].append(sector)`:
if the loop variable's field is still the shared list, the shared list
gains `hit` and the field becomes `None`; if it is already `None`,
`None.append` raises `AttributeError`. -/
def processHit (table : List SectorRow) (t : ℚ) (st : FlareState) (hit : Nat) :
    Except PyError FlareState :=
  match lookupSector table hit with
  | none => .error .indexError
  | some row =>
    if row.start < t ∧ t < row.stop then
      if st.localIsList then
        .ok ⟨st.dfSectors ++ [hit], false⟩
      else
        .error .attributeError
    else
      .ok st

/-- The inner loop over a flare's coverage hits; an uncaught exception
aborts the remaining hits. -/
def processHits (table : List SectorRow) (t : ℚ) :
    FlareState → List Nat → Except PyError FlareState
  | st, [] => .ok st
  | st, h :: hs =>
    match processHit table t st h with
    | .ok st' => processHits table t st' hs
    | .error e => .error e

/-- Matching of one flare: its `sectors` cell starts as the fresh empty
list created at load time, still referenced by the loop variable. -/
def processFlare (table : List SectorRow) (t : ℚ) (hits : List Nat) :
    Except PyError FlareState :=
  processHits table t ⟨[], true⟩ hits

/-- One flare of the batch, with the sector ids returned for it by the
external `lk.search_tesscut` coverage query (the `int(data_prod.mission[0][11:])`
parse of each data product). -/
structure FlareInput where
  mjd : ℚ
  hits : List Nat
deriving DecidableEq

/-- The outer loop over `spt_flares_df.iterrows()`: each flare's hits
are processed in order; an uncaught exception aborts the whole batch.
On success it returns each flare's final matched-sector list. -/
def runBatch (table : List SectorRow) : List FlareInput → Except PyError (List (List Nat))
  | [] => .ok []
  | f :: fs =>
    match processFlare table f.mjd f.hits with
    | .ok st =>
      match runBatch table fs with
      | .ok rest => .ok (st.dfSectors :: rest)
      | .error e => .error e
    | .error e => .error e

/-- Embeds the result-assembler cell
`spt_flares_df[spt_flares_df['sectors'].apply(lambda x: len(x) > 0)]`:
keep the flare records with a non-empty matched-sector list, in order.
(`reset_index()` only relabels pandas row indices, which are outside the
record data model.) -/
def resultAssembler (fs : List FlareRecord) : List FlareRecord :=
  fs.filter (fun f => decide (0 < f.sectors.length))

/-- The sector table of the spec's worked scenario:
`{(1, 100.0, 110.0), (2, 108.0, 120.0)}`. -/
def tableA : List SectorRow := [⟨1, 100, 110⟩, ⟨2, 108, 120⟩]

/-- A two-flare catalog used as a concrete witness input. -/
def flaresW : List FlareRecord := [⟨100, []⟩, ⟨109, []⟩]

/-- `flaresW` is non-empty. -/
theorem flaresW_ne : flaresW ≠ [] := by simp [flaresW]

/-- A raw orbit table with a sector whose every start is missing and a
sector whose every end is missing, used as a concrete witness input. -/
def rowsNa : List OrbitRow := [⟨1, none, some 5⟩, ⟨2, some 3, none⟩]

/-! ## Helper lemmas -/

/-- An unknown sector id makes the filtered selection empty, so
`.iloc[0]` raises `IndexError`. -/
lemma processHit_lookup_none {table : List SectorRow} {t : ℚ} (st : FlareState) {hit : Nat}
    (h : lookupSector table hit = none) :
    processHit table t st hit = .error .indexError := by
  simp [processHit, h]

/-- If some hit of the list refers to an unknown sector, the inner loop
ends in an uncaught exception, whatever the current state. -/
lemma processHits_error_of_unknown (table : List SectorRow) (t : ℚ) :
    ∀ (hits : List Nat) (st : FlareState),
      (∃ h ∈ hits, lookupSector table h = none) →
      ∃ e, processHits table t st hits = .error e := by
  intro hits
  induction hits with
  | nil =>
    intro st hex
    rcases hex with ⟨h, hm, _⟩
    cases hm
  | cons x xs ih =>
    intro st hex
    rcases hex with ⟨h, hm, hl⟩
    rcases List.mem_cons.mp hm with heq | hmem
    · subst heq
      exact ⟨.indexError, by simp [processHits, processHit_lookup_none st hl]⟩
    · cases hx : processHit table t st x with
      | error e => exact ⟨e, by simp [processHits, hx]⟩
      | ok st1 =>
        rcases ih st1 ⟨h, hmem, hl⟩ with ⟨e, he⟩
        exact ⟨e, by simp [processHits, hx, he]⟩

/-- If some flare of the batch errors, the whole batch errors. -/
lemma runBatch_error_of_flare_error (table : List SectorRow) :
    ∀ flares : List FlareInput,
      (∃ f ∈ flares, ∃ e, processFlare table f.mjd f.hits = .error e) →
      ∃ e, runBatch table flares = .error e := by
  intro flares
  induction flares with
  | nil =>
    intro hex
    rcases hex with ⟨f, hm, _⟩
    cases hm
  | cons f fs ih =>
    intro hex
    cases hf : processFlare table f.mjd f.hits with
    | error e => exact ⟨e, by simp [runBatch, hf]⟩
    | ok st =>
      rcases hex with ⟨g, hg, e0, he0⟩
      rcases List.mem_cons.mp hg with heq | hmem
      · subst heq
        rw [hf] at he0
        cases he0
      · rcases ih ⟨g, hmem, e0, he0⟩ with ⟨e, he⟩
        exact ⟨e, by simp [runBatch, hf, he]⟩

/-- The state invariant of the inner loop: as long as the loop
variable's `'sectors'` field still references the DataFrame's list, that
list is the fresh empty one, and in any case at most one append has
landed. -/
def SmallInv (st : FlareState) : Prop :=
  (st.localIsList = true → st.dfSectors = []) ∧ st.dfSectors.length ≤ 1

/-- One loop iteration preserves the invariant. -/
lemma processHit_inv {table : List SectorRow} {t : ℚ} {st : FlareState} {hit : Nat}
    {st' : FlareState} (hok : processHit table t st hit = .ok st')
    (hinv : SmallInv st) : SmallInv st' := by
  cases hl : lookupSector table hit with
  | none => simp [processHit, hl] at hok
  | some row =>
    simp only [processHit, hl] at hok
    by_cases hc : row.start < t ∧ t < row.stop
    · rw [if_pos hc] at hok
      cases hll : st.localIsList with
      | false => rw [hll] at hok; cases hok
      | true =>
        rw [hll] at hok
        cases hok
        have hempty : st.dfSectors = [] := hinv.1 hll
        unfold SmallInv
        exact ⟨fun h => by simp at h, by simp [hempty]⟩
    · rw [if_neg hc] at hok
      cases hok
      exact hinv

/-- The whole inner loop preserves the invariant. -/
lemma processHits_inv (table : List SectorRow) (t : ℚ) :
    ∀ (hits : List Nat) (st st' : FlareState),
      processHits table t st hits = .ok st' → SmallInv st → SmallInv st' := by
  intro hits
  induction hits with
  | nil =>
    intro st st' h hinv
    simp [processHits] at h
    cases h
    exact hinv
  | cons x xs ih =>
    intro st st' h hinv
    rw [processHits] at h
    cases hx : processHit table t st x with
    | error e => rw [hx] at h; cases h
    | ok st1 => rw [hx] at h; exact ih st1 st' h (processHit_inv hx hinv)

/-- A successful per-flare run ends in an invariant state. -/
lemma processFlare_inv {table : List SectorRow} {t : ℚ} {hits : List Nat}
    {st' : FlareState} (h : processFlare table t hits = .ok st') : SmallInv st' :=
  processHits_inv table t hits ⟨[], true⟩ st' h ⟨fun _ => rfl, by simp⟩

/-- A list with at most one element has no duplicates. -/
lemma nodup_of_length_le_one {l : List Nat} (h : l.length ≤ 1) : l.Nodup := by
  cases l with
  | nil => simp
  | cons a tl =>
    cases tl with
    | nil => simp
    | cons b tl2 => simp at h

/-! ## Claim theorems -/

/-- Claim C1: the generating spec asserts that on sector table
`{(1, 100.0, 110.0), (2, 108.0, 120.0)}`, a flare at timestamp `109.0`
with coverage hits `[1, 2]` completes the run with
`matched_sectors = [1, 2]` (every time-containing hit appended).  The
code diverges: the first containing hit appends `1` to the DataFrame's
list but rebinds the loop variable's `'sectors'` field to `None`
(`list.append` returns `None`), so the second containing hit raises
`AttributeError` and the whole batch aborts with `matched_sectors`
stuck at `[1]`. -/
theorem second_containing_hit_raises :
    processFlare tableA 109 [1] = .ok ⟨[1], false⟩
    ∧ processFlare tableA 109 [1, 2] = .error .attributeError
    ∧ runBatch tableA [⟨109, [1, 2]⟩] = .error .attributeError :=
  ⟨rfl, rfl, rfl⟩

/-- Claim C2: a coverage hit whose sector is found in the table is
matched according to the strict-open test `start < t < stop`.  The
boundary half is true of the code: a hit at `t = start` or `t = stop`
never changes the state, and any recorded append implies strict
containment.  The converse half ("contained implies recorded") is false:
on the duplicate containing hits `[2, 2]` at `t = 109` the second
containing hit raises `AttributeError` instead of being recorded. -/
theorem strict_open_containment_decides_match :
    (∀ (table : List SectorRow) (t : ℚ) (st : FlareState) (hit : Nat) (row : SectorRow),
        lookupSector table hit = some row → (t = row.start ∨ t = row.stop) →
        processHit table t st hit = .ok st)
    ∧ (∀ (table : List SectorRow) (t : ℚ) (st : FlareState) (hit : Nat) (row : SectorRow)
        (st' : FlareState),
        lookupSector table hit = some row → processHit table t st hit = .ok st' →
        st' ≠ st → row.start < t ∧ t < row.stop)
    ∧ processFlare tableA 109 [2, 2] = .error .attributeError := by
  refine ⟨?_, ?_, rfl⟩
  · intro table t st hit row hl hb
    have hc : ¬(row.start < t ∧ t < row.stop) := by
      rcases hb with hb | hb
      · exact fun hx => absurd hx.1 (by rw [hb]; exact lt_irrefl _)
      · exact fun hx => absurd hx.2 (by rw [hb]; exact lt_irrefl _)
    simp [processHit, hl, if_neg hc]
  · intro table t st hit row st' hl hok hne
    simp only [processHit, hl] at hok
    by_cases hc : row.start < t ∧ t < row.stop
    · exact hc
    · rw [if_neg hc] at hok
      cases hok
      exact absurd rfl hne

/-- Witness for C2: a hit at the exact window start (`t = 100` on sector
1's window `[100, 110]`) leaves the state unchanged. -/
theorem strict_open_containment_decides_match_witness :
    processHit tableA 100 ⟨[], true⟩ 1 = .ok ⟨[], true⟩ :=
  strict_open_containment_decides_match.1 tableA 100 ⟨[], true⟩ 1 ⟨1, 100, 110⟩ rfl (Or.inl rfl)

/-- Counterexample to Claim C3: the spec says a coverage hit referencing
an unknown sector id is skipped and the other hits of the flare are
still processed (the batch is not aborted).  On sector table
`[(1, 100, 110)]`, a flare at `t = 105` with hits `[99, 1]` would then
end with `matched_sectors = [1]` and a second flare would still run; the
code instead raises an uncaught `IndexError` at hit `99`
(`.iloc[0]` on the empty selection) and the batch dies. -/
theorem unknown_sector_aborts_run_counterexample :
    processFlare [⟨1, 100, 110⟩] 105 [99, 1] = .error .indexError
    ∧ runBatch [⟨1, 100, 110⟩] [⟨105, [99, 1]⟩, ⟨105, [1]⟩] = .error .indexError :=
  ⟨rfl, rfl⟩

/-- Claim C3 (amended): a coverage hit whose sector id is absent from
the aggregated table raises `IndexError` at the window lookup
(`.iloc[0]` of an empty selection); the exception is uncaught, so the
flare's remaining hits are not processed and the whole batch aborts. -/
theorem unknown_sector_raises_uncaught :
    (∀ (table : List SectorRow) (t : ℚ) (st : FlareState) (hit : Nat),
        lookupSector table hit = none → processHit table t st hit = .error .indexError)
    ∧ (∀ (table : List SectorRow) (t : ℚ) (hits : List Nat),
        (∃ h ∈ hits, lookupSector table h = none) →
        ∃ e, processFlare table t hits = .error e)
    ∧ (∀ (table : List SectorRow) (flares : List FlareInput),
        (∃ f ∈ flares, ∃ h ∈ f.hits, lookupSector table h = none) →
        ∃ e, runBatch table flares = .error e) := by
  refine ⟨fun table t st hit h => processHit_lookup_none st h, ?_, ?_⟩
  · intro table t hits hex
    exact processHits_error_of_unknown table t hits ⟨[], true⟩ hex
  · intro table flares hex
    rcases hex with ⟨f, hf, hbad⟩
    exact runBatch_error_of_flare_error table flares
      ⟨f, hf, processHits_error_of_unknown table f.mjd f.hits ⟨[], true⟩ hbad⟩

/-- Witness for C3 (amended): hit `99` is unknown to the one-sector
table, so the iteration raises `IndexError`. -/
theorem unknown_sector_raises_uncaught_witness :
    processHit [⟨1, 100, 110⟩] 105 ⟨[], true⟩ 99 = .error .indexError :=
  unknown_sector_raises_uncaught.1 [⟨1, 100, 110⟩] 105 ⟨[], true⟩ 99 rfl

/-- Claim C6: every flare record is created at load time with an empty
`sectors` list; the matching loop changes the DataFrame's list only by
appending the tested hit (one iteration either leaves it unchanged or
appends exactly that hit); and the list held by the DataFrame after any
sequence of loop iterations started from load state never contains a
duplicate sector id (indeed it holds at most one id, because the append
path can succeed at most once per flare). -/
theorem matched_sectors_lifecycle :
    (∀ mjds : List ℚ, ∀ f ∈ loadFlares mjds, f.sectors = ([] : List Nat))
    ∧ (∀ (table : List SectorRow) (t : ℚ) (st : FlareState) (hit : Nat) (st' : FlareState),
        processHit table t st hit = .ok st' →
        st'.dfSectors = st.dfSectors ∨ st'.dfSectors = st.dfSectors ++ [hit])
    ∧ (∀ (table : List SectorRow) (t : ℚ) (hits : List Nat) (st' : FlareState),
        processFlare table t hits = .ok st' → st'.dfSectors.Nodup) := by
  refine ⟨?_, ?_, ?_⟩
  · intro mjds f hf
    simp only [loadFlares, List.mem_map] at hf
    rcases hf with ⟨t, _, rfl⟩
    rfl
  · intro table t st hit st' hok
    cases hl : lookupSector table hit with
    | none => simp [processHit, hl] at hok
    | some row =>
      simp only [processHit, hl] at hok
      by_cases hc : row.start < t ∧ t < row.stop
      · rw [if_pos hc] at hok
        cases hll : st.localIsList with
        | false => rw [hll] at hok; cases hok
        | true =>
          rw [hll] at hok
          cases hok
          exact Or.inr rfl
      · rw [if_neg hc] at hok
        cases hok
        exact Or.inl rfl
  · intro table t hits st' hok
    exact nodup_of_length_le_one (processFlare_inv hok).2

/-- Witness for C6: the one-hit run at `t = 109` on the scenario table
completes in state `⟨[1], false⟩`, whose matched list has no duplicate. -/
theorem matched_sectors_lifecycle_witness :
    ([1] : List Nat).Nodup :=
  matched_sectors_lifecycle.2.2 tableA 109 [1] ⟨[1], false⟩ rfl

/-- Claim C7: the generating spec says the loader returns the flare
sequence sorted ascending by timestamp.  The code evaluates
`spt_flares_df.sort_values(by='mjd')` but discards the sorted copy
(no assignment, no `inplace=True`), so the loader preserves the input
order verbatim; on the two-row catalog `[60010, 60005]` the returned
sequence is `[60010, 60005]`, which is not sorted ascending. -/
theorem loader_sort_result_discarded :
    (∀ mjds : List ℚ, (loadFlares mjds).map FlareRecord.mjd = mjds)
    ∧ (loadFlares [60010, 60005]).map FlareRecord.mjd = [60010, 60005]
    ∧ ¬ List.Sorted (· ≤ ·) ((loadFlares [60010, 60005]).map FlareRecord.mjd) := by
  refine ⟨?_, rfl, ?_⟩
  · intro mjds
    simp [loadFlares, Function.comp_def]
  · intro h
    rw [show (loadFlares [60010, 60005]).map FlareRecord.mjd = [(60010 : ℚ), 60005] from rfl]
      at h
    rcases (List.sorted_cons.mp h).1 60005 (by simp) with hle
    norm_num at hle

/-- Witness for C7: the loader hands back the one-row catalog `[42]`
exactly in input order. -/
theorem loader_sort_result_discarded_witness :
    (loadFlares [42]).map FlareRecord.mjd = [42] :=
  loader_sort_result_discarded.1 [42]

/-- Claim C9: in a batch that completes without an exception every
flare ends with at most one matched sector.  The mechanism is also
proved: when the loop variable's `'sectors'` field still references the
DataFrame's list, a time-containing hit appends and rebinds the field
to `None` (`localIsList = false`); once it is `None`, a further
time-containing hit raises `AttributeError`, so a completing run can
never have appended twice to the same flare. -/
theorem completed_run_has_at_most_one_match :
    (∀ (table : List SectorRow) (flares : List FlareInput) (results : List (List Nat)),
        runBatch table flares = .ok results → ∀ r ∈ results, r.length ≤ 1)
    ∧ (∀ (table : List SectorRow) (t : ℚ) (st : FlareState) (hit : Nat) (row : SectorRow),
        lookupSector table hit = some row → row.start < t → t < row.stop →
        st.localIsList = true →
        processHit table t st hit = .ok ⟨st.dfSectors ++ [hit], false⟩)
    ∧ (∀ (table : List SectorRow) (t : ℚ) (st : FlareState) (hit : Nat) (row : SectorRow),
        lookupSector table hit = some row → row.start < t → t < row.stop →
        st.localIsList = false →
        processHit table t st hit = .error .attributeError) := by
  refine ⟨?_, ?_, ?_⟩
  · intro table flares
    induction flares with
    | nil =>
      intro results h r hr
      simp [runBatch] at h
      subst h
      cases hr
    | cons f fs ih =>
      intro results h r hr
      rw [runBatch] at h
      cases hf : processFlare table f.mjd f.hits with
      | error e => rw [hf] at h; cases h
      | ok st =>
        rw [hf] at h
        cases hb : runBatch table fs with
        | error e => rw [hb] at h; cases h
        | ok rest =>
          rw [hb] at h
          cases h
          rcases List.mem_cons.mp hr with heq | hmem
          · subst heq
            exact (processFlare_inv hf).2
          · exact ih rest hb r hmem
  · intro table t st hit row hl h1 h2 hloc
    simp [processHit, hl, if_pos (And.intro h1 h2), hloc]
  · intro table t st hit row hl h1 h2 hloc
    simp [processHit, hl, if_pos (And.intro h1 h2), hloc]

/-- Witness for C9: the batch of one flare with the single containing
hit `[1]` completes, and its result list `[1]` has length at most one. -/
theorem completed_run_has_at_most_one_match_witness :
    ([1] : List Nat).length ≤ 1 :=
  completed_run_has_at_most_one_match.1 tableA [⟨109, [1]⟩] [[1]] rfl [1]
    (List.mem_singleton.mpr rfl)

/-- Claim C4: the candidate filter returns exactly the sector ids whose
window satisfies `start <= t_max` and `end >= t_min` with
`t_min`/`t_max` taken positionally from the first and last rows of the
flare table in its given order, and its output depends on nothing of the
flare sequence beyond those two rows. -/
theorem candidate_filter_is_interval_overlap :
    (∀ (table : List SectorRow) (flares : List FlareRecord) (h : flares ≠ []) (s : Nat),
        s ∈ validSectors table (sptTBounds flares h).1 (sptTBounds flares h).2 ↔
          ∃ r ∈ table, r.sector = s ∧ r.start ≤ (flares.getLast h).mjd ∧
            (flares.head h).mjd ≤ r.stop)
    ∧ (∀ (table : List SectorRow) (fl1 fl2 : List FlareRecord) (h1 : fl1 ≠ [])
        (h2 : fl2 ≠ []),
        (fl1.head h1).mjd = (fl2.head h2).mjd →
        (fl1.getLast h1).mjd = (fl2.getLast h2).mjd →
        validSectors table (sptTBounds fl1 h1).1 (sptTBounds fl1 h1).2 =
          validSectors table (sptTBounds fl2 h2).1 (sptTBounds fl2 h2).2) := by
  constructor
  · intro table flares h s
    simp only [validSectors, sptTBounds, List.mem_dedup, List.mem_map, List.mem_filter,
      Bool.and_eq_true, decide_eq_true_eq]
    constructor
    · rintro ⟨r, ⟨hr, hle1, hle2⟩, rfl⟩
      exact ⟨r, hr, rfl, hle1, hle2⟩
    · rintro ⟨r, hr, rfl, hle1, hle2⟩
      exact ⟨r, ⟨hr, hle1, hle2⟩, rfl⟩
  · intro table fl1 fl2 h1 h2 hh hl
    simp only [sptTBounds]
    rw [hh, hl]

/-- Witness for C4: on the scenario table with a catalog whose first and
last timestamps are `100` and `109`, sector `2` (window `[108, 120]`)
is a candidate. -/
theorem candidate_filter_is_interval_overlap_witness :
    2 ∈ validSectors tableA (sptTBounds flaresW flaresW_ne).1 (sptTBounds flaresW flaresW_ne).2 :=
  (candidate_filter_is_interval_overlap.1 tableA flaresW flaresW_ne 2).mpr
    ⟨⟨2, 108, 120⟩, by decide, rfl, by decide, by decide⟩

/-- `≤` on `ℚ` is antisymmetric, packaged for the `List.min?`/`List.max?`
characterisations. -/
instance : Std.Antisymm ((· : ℚ) ≤ ·) :=
  ⟨fun hab hba => le_antisymm hab hba⟩

/-- `List.min?` on rationals returns exactly the least element. -/
lemma rat_min?_eq_some_iff {l : List ℚ} {q : ℚ} :
    l.min? = some q ↔ q ∈ l ∧ ∀ p ∈ l, q ≤ p :=
  List.min?_eq_some_iff (fun a => le_refl a) (fun a b => min_choice a b)
    (fun _ _ _ => le_min_iff)

/-- `List.max?` on rationals returns exactly the greatest element. -/
lemma rat_max?_eq_some_iff {l : List ℚ} {q : ℚ} :
    l.max? = some q ↔ q ∈ l ∧ ∀ p ∈ l, p ≤ q :=
  List.max?_eq_some_iff (fun a => le_refl a) (fun a b => max_choice a b)
    (fun _ _ _ => max_le_iff)

/-- The sector ids of the aggregated table are its group keys. -/
lemma aggregateSectors_map_sector (rows : List OrbitRow) :
    (aggregateSectors rows).map AggRow.sector = groupKeys rows := by
  simp [aggregateSectors, List.map_map, Function.comp_def, aggRow]

/-- Claim C5: aggregating the orbit table yields exactly one row per
sector id present in the input, whose `Sector Start` is the least of the
group's present orbit starts and whose `Sector End` is the greatest of
the group's present orbit ends (pandas `min`/`max` skip missing cells). -/
theorem aggregation_one_row_min_start_max_end (rows : List OrbitRow) :
    ((aggregateSectors rows).map AggRow.sector).Nodup
    ∧ (∀ s : Nat, (∃ a ∈ aggregateSectors rows, a.sector = s) ↔ ∃ r ∈ rows, r.sector = s)
    ∧ ∀ a ∈ aggregateSectors rows,
        (∀ q : ℚ, a.aggStart = some q ↔
          q ∈ (sectorGroup rows a.sector).filterMap OrbitRow.orbStart ∧
          ∀ p ∈ (sectorGroup rows a.sector).filterMap OrbitRow.orbStart, q ≤ p)
        ∧ (∀ q : ℚ, a.aggEnd = some q ↔
          q ∈ (sectorGroup rows a.sector).filterMap OrbitRow.orbEnd ∧
          ∀ p ∈ (sectorGroup rows a.sector).filterMap OrbitRow.orbEnd, p ≤ q) := by
  refine ⟨?_, ?_, ?_⟩
  · rw [aggregateSectors_map_sector]
    exact ((List.perm_insertionSort _ _).nodup_iff).mpr (List.nodup_dedup _)
  · intro s
    constructor
    · rintro ⟨a, ha, rfl⟩
      have : a.sector ∈ (aggregateSectors rows).map AggRow.sector :=
        List.mem_map.mpr ⟨a, ha, rfl⟩
      rw [aggregateSectors_map_sector] at this
      simp only [groupKeys, List.mem_insertionSort, List.mem_dedup, List.mem_map] at this
      exact this
    · intro hr
      have hkey : s ∈ groupKeys rows := by
        simp only [groupKeys, List.mem_insertionSort, List.mem_dedup, List.mem_map]
        exact hr
      exact ⟨aggRow rows s, List.mem_map.mpr ⟨s, hkey, rfl⟩, rfl⟩
  · intro a ha
    rcases List.mem_map.mp ha with ⟨k, _, rfl⟩
    constructor
    · intro q
      exact rat_min?_eq_some_iff
    · intro q
      exact rat_max?_eq_some_iff

/-- Witness for C5: on the concrete orbit table `rowsNa`, the aggregated
row of sector `2` carries `Sector Start = 3`, the least present start of
its group. -/
theorem aggregation_one_row_min_start_max_end_witness :
    (⟨2, some 3, none⟩ : AggRow).aggStart = some 3 :=
  (((aggregation_one_row_min_start_max_end rowsNa).2.2 ⟨2, some 3, none⟩ (by decide)).1 3).mpr
    (by decide)

/-- Claim C8: the result assembler is a pure order-preserving filter:
its output is a sub-sequence of its input (so every output record is an
unmodified input record), it keeps exactly the records with a non-empty
matched-sector list, and applying it to its own output changes nothing. -/
theorem result_assembler_pure_filter (fs : List FlareRecord) :
    (resultAssembler fs).Sublist fs
    ∧ (∀ f ∈ resultAssembler fs, 0 < f.sectors.length)
    ∧ (∀ f ∈ fs, 0 < f.sectors.length → f ∈ resultAssembler fs)
    ∧ resultAssembler (resultAssembler fs) = resultAssembler fs := by
  refine ⟨List.filter_sublist _, ?_, ?_, ?_⟩
  · intro f hf
    have := (List.mem_filter.mp hf).2
    simpa using this
  · intro f hf hl
    exact List.mem_filter.mpr ⟨hf, by simpa using hl⟩
  · simp [resultAssembler, List.filter_filter]

/-- Witness for C8: the matched flare of a two-flare table survives the
filter. -/
theorem result_assembler_pure_filter_witness :
    (⟨100, [67]⟩ : FlareRecord) ∈ resultAssembler [⟨100, [67]⟩, ⟨101, []⟩] :=
  (result_assembler_pure_filter [⟨100, [67]⟩, ⟨101, []⟩]).2.2.1 ⟨100, [67]⟩ (by decide)
    (by decide)

/-- Claim C10: `dropna(subset=['Sector Start'])` keeps exactly the
aggregated rows whose `Sector Start` is present — a row with a missing
aggregated start is silently removed (no error is raised: the drop is a
total filter), while `Sector End` is never inspected, so a row with a
missing end but a present start stays in the table. -/
theorem dropna_filters_on_start_only (rows : List OrbitRow) :
    (∀ a : AggRow, a ∈ preparedSectors rows ↔
        a ∈ aggregateSectors rows ∧ a.aggStart.isSome = true)
    ∧ (∀ a ∈ aggregateSectors rows, a.aggStart = none → a ∉ preparedSectors rows)
    ∧ (∀ a ∈ aggregateSectors rows, a.aggEnd = none → a.aggStart.isSome = true →
        a ∈ preparedSectors rows) := by
  have hmem : ∀ a : AggRow, a ∈ preparedSectors rows ↔
      a ∈ aggregateSectors rows ∧ a.aggStart.isSome = true := by
    intro a
    simp only [preparedSectors, dropStartNa, List.mem_filter]
    tauto
  refine ⟨hmem, ?_, ?_⟩
  · intro a _ hnone hmem2
    have := ((hmem a).mp hmem2).2
    rw [hnone] at this
    cases this
  · intro a ha _ hsome
    exact (hmem a).mpr ⟨ha, hsome⟩

/-- Witness for C10: in `rowsNa`, sector `2`'s aggregated row has a
missing `Sector End` but a present `Sector Start`, and it survives both
`dropna(subset=['Sector Start'])` lines. -/
theorem dropna_filters_on_start_only_witness :
    (⟨2, some 3, none⟩ : AggRow) ∈ preparedSectors rowsNa :=
  (dropna_filters_on_start_only rowsNa).2.2 ⟨2, some 3, none⟩ (by decide) rfl rfl

end SPTFlares
